import Mathlib

/-!
Shallow embedding of the IBM-Quantum-QCE20-Tutorials notebooks:
the T1 inversion-recovery fit pipeline (`calc_prob1`,
`inversion_recovery_function`, `get_qubit_counts`, `extract_prob1_data`,
`fit_t1` from "Exercise 1 - Measuring Relaxation in Qubits.ipynb"),
the randomized-benchmarking error-per-Clifford formula ("Session 2.ipynb"),
and the MaxCut objective of the optimization notebook.

Python floats are modelled by real numbers, exact Python `/` division on
integer counts by rational numbers, and a Qiskit counts dictionary by an
association list from bitstrings to integers (Python ints), with
`dict.get(key, 0)` as first-match lookup defaulting to 0.
-/

/-- A Qiskit counts dictionary: bitstring keys, integer occurrence counts. -/
abbrev Counts := List (String × ℤ)

/-- Python `counts.get(key, 0)`: the value at `key`, or `0` when absent. -/
def countsGet : Counts → String → ℤ
  | [], _ => 0
  | (k, v) :: rest, key => if k = key then v else countsGet rest key

/-- The data-model invariant of the spec: counts are non-negative integers. -/
def NonnegCounts (d : Counts) : Prop := ∀ p ∈ d, 0 ≤ p.2

/-- `calc_prob1` from the T1 notebook, on inputs where the division is defined:
`counts.get('1', 0) / (counts.get('0', 0) + counts.get('1', 0))`. -/
def calc_prob1 (counts : Counts) : ℚ :=
  (countsGet counts "1" : ℚ) / ((countsGet counts "0" : ℚ) + (countsGet counts "1" : ℚ))

/-- The exceptions the embedded notebook code can raise. -/
inductive PyErr where
  | zeroDivisionError
deriving DecidableEq, Repr

/-- `calc_prob1` with Python error semantics: integer division by zero raises
`ZeroDivisionError`; otherwise the exact quotient is returned. -/
def calc_prob1E (counts : Counts) : Except PyErr ℚ :=
  if countsGet counts "0" + countsGet counts "1" = 0 then
    .error .zeroDivisionError
  else
    .ok (calc_prob1 counts)

/-- `n_exps = 50` from the T1 notebook. -/
def n_exps : ℕ := 50

/-- The body of `extract_prob1_data`'s `for exp in range(n_exps)` loop over an
explicit list of experiment indices, with Python's fail-fast exception
propagation: the first `ZeroDivisionError` aborts the loop.  The per-experiment
(already marginalised) counts are supplied by `countsOf`. -/
def extractLoop (countsOf : ℕ → Counts) : List ℕ → Except PyErr (List ℚ)
  | [] => .ok []
  | e :: rest =>
    match calc_prob1E (countsOf e) with
    | .error err => .error err
    | .ok p =>
      match extractLoop countsOf rest with
      | .error err => .error err
      | .ok ps => .ok (p :: ps)

/-- `extract_prob1_data` from the T1 notebook: apply `calc_prob1` to each of
the `n_exps` experiments' counts, propagating any `ZeroDivisionError`. -/
def extract_prob1_dataE (countsOf : ℕ → Counts) : Except PyErr (List ℚ) :=
  extractLoop countsOf (List.range n_exps)

/-- Spec-side definition (for comparison with `calc_prob1`): the empirical
probability of the single-qubit outcome `b` in a counts dictionary over
outcomes `'0'` and `'1'`. -/
def prob_of_outcome (b : String) (counts : Counts) : ℚ :=
  (countsGet counts b : ℚ) / ((countsGet counts "0" : ℚ) + (countsGet counts "1" : ℚ))

/-- `inversion_recovery_function` from the T1 notebook: `np.exp(-tau/t1)`. -/
noncomputable def inversion_recovery_function (tau t1 : ℝ) : ℝ :=
  Real.exp (-tau / t1)

/-- `fit_t1` from the T1 notebook.  The imported `fit_function` (from the
repository module `fitting`) is passed explicitly: `fit_t1` makes the single
call `fit_function(delays, prob1_data, inversion_recovery_function, [100])`
and returns `(fit_params[0], y_fit)`. -/
noncomputable def fit_t1
    (fit_function : List ℝ → List ℝ → (ℝ → ℝ → ℝ) → List ℝ → List ℝ × List ℝ)
    (delays prob1_data : List ℝ) : ℝ × List ℝ :=
  let r := fit_function delays prob1_data inversion_recovery_function [100]
  (r.1.headI, r.2)

/-- `np.linspace(lo, hi, n)`: `n` evenly spaced points from `lo` to `hi`
(the `i`-th point, for `i < n`). -/
noncomputable def linspace (lo hi : ℝ) (n : ℕ) : ℕ → ℝ :=
  fun i => lo + (i : ℝ) * ((hi - lo) / ((n : ℝ) - 1))

/-- `min_delay = 0.` from the T1 notebook. -/
def min_delay : ℝ := 0

/-- `max_delay = 200.e-6` from the T1 notebook. -/
noncomputable def max_delay : ℝ := 200e-6

/-- `delays = np.linspace(min_delay, max_delay, n_exps)` from the T1 notebook. -/
noncomputable def delays : ℕ → ℝ :=
  linspace min_delay max_delay n_exps

/-- Modelled from the spec: the repository module `fitting` (absent from
src/) supplies `fit_function`, "a single least-squares call with a
user-supplied model function and initial guess".  Its fitted parameter
minimises this sum of squared residuals of the inversion-recovery model
against the data over the `n_exps` delays. -/
noncomputable def ssr (ds data : ℕ → ℝ) (t1 : ℝ) : ℝ :=
  ∑ i : Fin n_exps, (data i - inversion_recovery_function (ds i) t1) ^ 2

/-- The error-per-Clifford formula of the RB notebook ("Session 2.ipynb"):
`EPC = ((2^n - 1) / 2^n) * (1 - alpha)` for `n` qubits and fitted decay
rate `alpha`. -/
noncomputable def EPC (n : ℕ) (alpha : ℝ) : ℝ :=
  (((2 : ℝ) ^ n - 1) / (2 : ℝ) ^ n) * (1 - alpha)

/-- The weighted edge list of the 5-node MaxCut graph from the optimization
notebook: `edges = [(0,1,1.0), (0,2,1.0), (0,3,1.0), (1,2,1.0), (2,3,1.0),
(2,4,1.0), (3,4,1.0)]`, each tuple `(i, j, weight)`. -/
def edges : List (ℕ × ℕ × ℚ) :=
  [(0, 1, 1), (0, 2, 1), (0, 3, 1), (1, 2, 1), (2, 3, 1), (2, 4, 1), (3, 4, 1)]

/-- The MaxCut objective built in the optimization notebook:
`mdl.sum([w * (x[i] + x[j] - 2*x[i]*x[j]) for (i, j, w) in edges])`. -/
def objective (x : ℕ → ℚ) : ℚ :=
  (edges.map (fun e => e.2.2 * (x e.1 + x e.2.1 - 2 * x e.1 * x e.2.1))).sum

/-- Spec-side definition: the value of the cut induced by the binary
assignment `x` — the total weight of the edges whose endpoints receive
different values. -/
def cutValue (x : ℕ → ℚ) : ℚ :=
  (edges.map (fun e => if x e.1 ≠ x e.2.1 then e.2.2 else 0)).sum

/-- `dict.get` as a state-passing operation on the counts store: it returns
the looked-up value together with the store it leaves behind. -/
def pyGet (key : String) (d : Counts) : ℤ × Counts :=
  (countsGet d key, d)

/-- `calc_prob1` as a state-passing computation over its counts argument,
performing its three `dict.get` reads left to right and returning the
quotient together with the final state of the dictionary. -/
def calc_prob1_run (counts : Counts) : ℚ × Counts :=
  let r1 := pyGet "1" counts
  let r0 := pyGet "0" r1.2
  let r1b := pyGet "1" r0.2
  ((r1.1 : ℚ) / ((r0.1 : ℚ) + (r1b.1 : ℚ)), r1b.2)

/-- `get_qubit_counts` from the T1 notebook as a state-passing computation
over the result object (modelled as the per-experiment counts it yields):
`marginal_counts(result.get_counts(index), indices=[qubit.index])`, with the
external Qiskit `marginal_counts` supplied as a pure function parameter. -/
def get_qubit_counts_run (marginal : Counts → ℕ → Counts) (qubitIdx : ℕ)
    (result : ℕ → Counts) (index : ℕ) : Counts × (ℕ → Counts) :=
  (marginal (result index) qubitIdx, result)

/-- `extract_prob1_data` from the T1 notebook as a state-passing computation
over the result object, threading it through all `n_exps` iterations of the
loop and returning the collected probabilities with the final state. -/
def extract_prob1_data_run (marginal : Counts → ℕ → Counts) (qubitIdx : ℕ)
    (result : ℕ → Counts) : List ℚ × (ℕ → Counts) :=
  (List.range n_exps).foldl
    (fun acc e =>
      (acc.1 ++ [(calc_prob1_run (get_qubit_counts_run marginal qubitIdx acc.2 e).1).1],
        (get_qubit_counts_run marginal qubitIdx acc.2 e).2))
    ([], result)

/-! ## Helper lemmas -/

lemma countsGet_nonneg (d : Counts) (hnn : NonnegCounts d) (k : String) :
    0 ≤ countsGet d k := by
  induction d with
  | nil => simp [countsGet]
  | cons p rest ih =>
    obtain ⟨a, v⟩ := p
    by_cases h : a = k
    · simpa [countsGet, h] using hnn (a, v) (by simp)
    · simpa [countsGet, h] using ih (fun q hq => hnn q (List.mem_cons_of_mem _ hq))

lemma extractLoop_error (countsOf : ℕ → Counts) :
    ∀ (l : List ℕ) (e : ℕ), e ∈ l →
      calc_prob1E (countsOf e) = .error .zeroDivisionError →
      extractLoop countsOf l = .error .zeroDivisionError := by
  intro l
  induction l with
  | nil => intro e he; simp at he
  | cons a t ih =>
    intro e he herr
    rcases List.mem_cons.mp he with rfl | hmem
    · simp [extractLoop, herr]
    · cases hA : calc_prob1E (countsOf a) with
      | error err => cases err; simp [extractLoop, hA]
      | ok p => simp [extractLoop, hA, ih e hmem herr]

lemma calc_prob1E_ok (c : Counts) (p : ℚ) (h : calc_prob1E c = .ok p) :
    p = calc_prob1 c := by
  unfold calc_prob1E at h
  by_cases h0 : countsGet c "0" + countsGet c "1" = 0
  · simp [h0] at h
  · simp [h0] at h
    exact h.symm

lemma extractLoop_ok (countsOf : ℕ → Counts) :
    ∀ (l : List ℕ) (out : List ℚ), extractLoop countsOf l = .ok out →
      out = l.map (fun e => prob_of_outcome "1" (countsOf e)) := by
  intro l
  induction l with
  | nil =>
    intro out h
    simp [extractLoop] at h
    simp [h.symm]
  | cons a t ih =>
    intro out h
    cases hA : calc_prob1E (countsOf a) with
    | error err => simp [extractLoop, hA] at h
    | ok p =>
      cases hT : extractLoop countsOf t with
      | error err => simp [extractLoop, hA, hT] at h
      | ok ps =>
        simp [extractLoop, hA, hT] at h
        have hp : p = prob_of_outcome "1" (countsOf a) := calc_prob1E_ok _ _ hA
        rw [← h, List.map_cons, ← hp, ih ps hT]

lemma extract_foldl_snd (marginal : Counts → ℕ → Counts) (qubitIdx : ℕ) :
    ∀ (l : List ℕ) (acc : List ℚ × (ℕ → Counts)),
      (l.foldl
        (fun acc e =>
          (acc.1 ++ [(calc_prob1_run (get_qubit_counts_run marginal qubitIdx acc.2 e).1).1],
            (get_qubit_counts_run marginal qubitIdx acc.2 e).2)) acc).2 = acc.2 := by
  intro l
  induction l with
  | nil => intro acc; rfl
  | cons a t ih =>
    intro acc
    rw [List.foldl_cons, ih]
    rfl

/-! ## Claim theorems -/

/-- C1 (counterexample): the per-experiment value `calc_prob1` computes is not
the probability of outcome `'0'`: at the counts dictionary
`{'0': 3, '1': 1}` the pipeline's data value is `1/4`, while the probability
of outcome `'0'` there is `3/4`. -/
theorem calc_prob1_ne_prob_of_outcome_zero :
    calc_prob1 [("0", 3), ("1", 1)] ≠ prob_of_outcome "0" [("0", 3), ("1", 1)] := by
  have h01 : (("0" : String) = "1") ↔ False := iff_false_intro (by decide)
  norm_num [calc_prob1, prob_of_outcome, countsGet, h01]

/-- C1 (amended): the inversion-recovery fit pipeline fits against the model
`inversion_recovery_function(tau, t1) = e^(-tau/t1)`, and the per-experiment
data array that `fit_t1` fits (produced by applying `calc_prob1` to each
experiment's counts over the `n_exps` experiment indices) is the probability
of outcome `'1'` at that delay. -/
theorem t1_pipeline_fits_prob_of_outcome_one :
    (∀ tau t1 : ℝ, inversion_recovery_function tau t1 = Real.exp (-tau / t1)) ∧
    (∀ countsOf : ℕ → Counts,
      extract_prob1_dataE countsOf = extractLoop countsOf (List.range n_exps)) ∧
    (∀ (countsOf : ℕ → Counts) (es : List ℕ) (out : List ℚ),
      extractLoop countsOf es = .ok out →
      out = es.map (fun e => prob_of_outcome "1" (countsOf e))) :=
  ⟨fun _ _ => rfl, fun _ => rfl, fun countsOf es out h => extractLoop_ok countsOf es out h⟩

/-- C1 (witness): for the counts dictionary `{'0': 1, '1': 1}` at one
experiment index, the extracted datum `1/2` is the probability of
outcome `'1'`. -/
theorem t1_pipeline_fits_prob_of_outcome_one_w :
    [(1 : ℚ)/2] =
      [0].map (fun e => prob_of_outcome "1"
        ((fun _ => ([("0", 1), ("1", 1)] : Counts)) e)) :=
  t1_pipeline_fits_prob_of_outcome_one.2.2 (fun _ => [("0", 1), ("1", 1)]) [0] [(1 : ℚ)/2]
    (by norm_num [extractLoop, calc_prob1E, calc_prob1, countsGet])

/-- C2: for a counts dictionary with non-negative integer values whose
`'0'` and `'1'` counts sum to a positive number, `calc_prob1` returns
`counts.get('1',0) / (counts.get('0',0) + counts.get('1',0))`, and that value
lies in `[0, 1]`. -/
theorem calc_prob1_formula_and_bounds (counts : Counts) (hnn : NonnegCounts counts)
    (hpos : 0 < countsGet counts "0" + countsGet counts "1") :
    calc_prob1 counts =
      (countsGet counts "1" : ℚ) / ((countsGet counts "0" : ℚ) + (countsGet counts "1" : ℚ)) ∧
    0 ≤ calc_prob1 counts ∧ calc_prob1 counts ≤ 1 := by
  have hA : (0 : ℚ) ≤ (countsGet counts "0" : ℚ) := by
    exact_mod_cast countsGet_nonneg counts hnn "0"
  have hB : (0 : ℚ) ≤ (countsGet counts "1" : ℚ) := by
    exact_mod_cast countsGet_nonneg counts hnn "1"
  have hD : (0 : ℚ) < (countsGet counts "0" : ℚ) + (countsGet counts "1" : ℚ) := by
    exact_mod_cast hpos
  exact ⟨rfl, div_nonneg hB (le_of_lt hD), (div_le_one hD).mpr (by linarith)⟩

/-- C2 (witness): instantiation at the counts dictionary `{'0': 1, '1': 1}`. -/
theorem calc_prob1_formula_and_bounds_w :
    0 ≤ calc_prob1 [("0", 1), ("1", 1)] ∧ calc_prob1 [("0", 1), ("1", 1)] ≤ 1 :=
  (calc_prob1_formula_and_bounds [("0", 1), ("1", 1)]
    (by unfold NonnegCounts; decide) (by decide)).2

/-- C3: on synthetic probability data generated from the model itself over
the notebook's 50 evenly spaced delays, any least-squares-optimal fitted
decay constant equals the true `T1`: if the sum of squared residuals at
`t1f` is at most that at `T1` (which is zero), then `t1f = T1`. -/
theorem fit_t1_recovers_true_t1 (T1 t1f : ℝ) (hT : 0 < T1) (ht : 0 < t1f)
    (hmin : ssr delays (fun i => inversion_recovery_function (delays i) T1) t1f ≤
            ssr delays (fun i => inversion_recovery_function (delays i) T1) T1) :
    t1f = T1 := by
  have hzero : ssr delays (fun i => inversion_recovery_function (delays i) T1) T1 = 0 := by
    unfold ssr
    apply Finset.sum_eq_zero
    intro i _
    simp
  have hnonneg : 0 ≤ ssr delays (fun i => inversion_recovery_function (delays i) T1) t1f := by
    unfold ssr
    exact Finset.sum_nonneg (fun i _ => sq_nonneg _)
  have heq0 : ssr delays (fun i => inversion_recovery_function (delays i) T1) t1f = 0 :=
    le_antisymm (hzero ▸ hmin) hnonneg
  have hterm :=
    (Finset.sum_eq_zero_iff_of_nonneg (fun i _ => sq_nonneg
      (inversion_recovery_function (delays (i : Fin n_exps)) T1 -
        inversion_recovery_function (delays i) t1f))).mp (by unfold ssr at heq0; exact heq0)
      ⟨1, by norm_num [n_exps]⟩ (Finset.mem_univ _)
  have hexp : inversion_recovery_function (delays 1) T1 =
      inversion_recovery_function (delays 1) t1f := by
    have h1 := sq_eq_zero_iff.mp hterm
    have h2 := sub_eq_zero.mp h1
    simpa using h2
  have harg : -(delays 1) / T1 = -(delays 1) / t1f := by
    have := Real.exp_eq_exp.mp hexp
    simpa [inversion_recovery_function] using this
  have hd : delays 1 ≠ 0 := by
    unfold delays linspace min_delay max_delay n_exps
    norm_num
  have harg2 : delays 1 / T1 = delays 1 / t1f := by
    have := congrArg Neg.neg harg
    simpa [neg_div] using this
  have hcross : delays 1 * t1f = delays 1 * T1 := by
    rw [div_eq_div_iff (ne_of_gt hT) (ne_of_gt ht)] at harg2
    linarith [harg2]
  exact mul_left_cancel₀ hd hcross

/-- C3 (witness): instantiation at `T1 = 1`, with the residual bound holding
reflexively at the optimum. -/
theorem fit_t1_recovers_true_t1_w : (1 : ℝ) = 1 :=
  fit_t1_recovers_true_t1 1 1 one_pos one_pos (le_refl _)

/-- C4: `fit_t1` is exactly one least-squares call: it returns the pair
`(fit_params[0], y_fit)` of the single call
`fit_function(delays, prob1_data, inversion_recovery_function, [100])`, and
its output depends on the fitting routine only through that one call. -/
theorem fit_t1_single_call
    (ff : List ℝ → List ℝ → (ℝ → ℝ → ℝ) → List ℝ → List ℝ × List ℝ)
    (ds pd : List ℝ) :
    fit_t1 ff ds pd =
      ((ff ds pd inversion_recovery_function [100]).1.headI,
        (ff ds pd inversion_recovery_function [100]).2) ∧
    (∀ ff₂, ff ds pd inversion_recovery_function [100] =
        ff₂ ds pd inversion_recovery_function [100] →
      fit_t1 ff ds pd = fit_t1 ff₂ ds pd) := by
  constructor
  · rfl
  · intro ff₂ hagree
    unfold fit_t1
    rw [hagree]

/-- C4 (witness): two fitting routines that agree on the single call made by
`fit_t1` yield the same `fit_t1` output. -/
theorem fit_t1_single_call_w :
    fit_t1 (fun _ p _ g => (g, p)) [0] [1] =
      fit_t1 (fun _ p _ g => (g, p ++ [])) [0] [1] :=
  (fit_t1_single_call (fun _ p _ g => (g, p)) [0] [1]).2
    (fun _ p _ g => (g, p ++ [])) (by simp)

/-- C5: `calc_prob1` raises `ZeroDivisionError` exactly when
`counts.get('0',0) + counts.get('1',0) == 0`, and `extract_prob1_data` does
not guard or handle that error: a zero-denominator experiment among the
`n_exps` experiments makes the whole extraction raise. -/
theorem calc_prob1_zero_division :
    (∀ c : Counts, calc_prob1E c = .error .zeroDivisionError ↔
      countsGet c "0" + countsGet c "1" = 0) ∧
    (∀ (countsOf : ℕ → Counts) (e : ℕ), e < n_exps →
      calc_prob1E (countsOf e) = .error .zeroDivisionError →
      extract_prob1_dataE countsOf = .error .zeroDivisionError) := by
  constructor
  · intro c
    by_cases h : countsGet c "0" + countsGet c "1" = 0 <;> simp [calc_prob1E, h]
  · intro countsOf e he herr
    exact extractLoop_error countsOf (List.range n_exps) e (List.mem_range.mpr he) herr

/-- C5 (witness): with every experiment's counts empty, the extraction raises
`ZeroDivisionError`. -/
theorem calc_prob1_zero_division_w :
    extract_prob1_dataE (fun _ => []) = .error .zeroDivisionError :=
  calc_prob1_zero_division.2 (fun _ => []) 0 (by norm_num [n_exps]) (by rfl)

/-- C6: the error-per-Clifford satisfies `EPC = ((2^n - 1)/2^n) * (1 - alpha)`:
for 1-qubit RB it is `(1 - alpha)/2`, for 2-qubit RB it is `(3/4)*(1 - alpha)`,
it vanishes at `alpha = 1`, and it is strictly decreasing in `alpha` for any
`n ≥ 1` qubits. -/
theorem epc_formula_props :
    (∀ alpha : ℝ, EPC 1 alpha = (1 - alpha) / 2) ∧
    (∀ alpha : ℝ, EPC 2 alpha = (3 / 4) * (1 - alpha)) ∧
    (∀ n : ℕ, EPC n 1 = 0) ∧
    (∀ (n : ℕ) (alpha beta : ℝ), 1 ≤ n → alpha < beta → EPC n beta < EPC n alpha) := by
  refine ⟨?_, ?_, ?_, ?_⟩
  · intro a; unfold EPC; norm_num; ring
  · intro a; unfold EPC; norm_num
  · intro n; unfold EPC; simp
  · intro n a b hn hab
    have h2 : (1 : ℝ) < 2 ^ n := one_lt_pow₀ (by norm_num) (by omega)
    have hc : 0 < ((2 : ℝ) ^ n - 1) / (2 : ℝ) ^ n := div_pos (by linarith) (by positivity)
    unfold EPC
    exact mul_lt_mul_of_pos_left (by linarith) hc

/-- C6 (witness): for the 1-qubit experiment, `EPC` at `alpha = 1` is below
`EPC` at `alpha = 0`. -/
theorem epc_formula_props_w : EPC 1 1 < EPC 1 0 :=
  epc_formula_props.2.2.2 1 0 1 (le_refl 1) one_pos

/-- C7: every counts-consuming operation of the T1 notebook is read-only on
its input: `calc_prob1`, `get_qubit_counts` and `extract_prob1_data` leave
the counts dictionary and the result object they receive unchanged, so the
non-negativity invariant of the counts data model is preserved across the
extract-and-fit pipeline. -/
theorem pipeline_read_only :
    (∀ c : Counts, (calc_prob1_run c).2 = c) ∧
    (∀ (marginal : Counts → ℕ → Counts) (q : ℕ) (result : ℕ → Counts) (i : ℕ),
      (get_qubit_counts_run marginal q result i).2 = result) ∧
    (∀ (marginal : Counts → ℕ → Counts) (q : ℕ) (result : ℕ → Counts),
      (extract_prob1_data_run marginal q result).2 = result) ∧
    (∀ (marginal : Counts → ℕ → Counts) (q : ℕ) (result : ℕ → Counts),
      (∀ e, NonnegCounts (result e)) →
      ∀ e, NonnegCounts ((extract_prob1_data_run marginal q result).2 e)) := by
  refine ⟨fun c => rfl, fun m q r i => rfl, fun m q r => extract_foldl_snd m q _ _, ?_⟩
  intro m q r h e
  have h2 : (extract_prob1_data_run m q r).2 = r := extract_foldl_snd m q _ _
  rw [h2]
  exact h e

/-- C7 (witness): with the identity marginalisation and a concrete
non-negative result store, the store after extraction still satisfies the
invariant. -/
theorem pipeline_read_only_w :
    NonnegCounts ((extract_prob1_data_run (fun c _ => c) 0 (fun _ => [("0", 3)])).2 7) :=
  pipeline_read_only.2.2.2 (fun c _ => c) 0 (fun _ => [("0", 3)])
    (fun _ => (by unfold NonnegCounts; decide : NonnegCounts [("0", 3)])) 7

/-- C8: `calc_prob1` depends only on the `'0'` and `'1'` entries of its
argument: two counts dictionaries agreeing on those two keys (absent keys
counting as 0) get the same result, errors included. -/
theorem calc_prob1_depends_only_on_keys (c1 c2 : Counts)
    (h0 : countsGet c1 "0" = countsGet c2 "0")
    (h1 : countsGet c1 "1" = countsGet c2 "1") :
    calc_prob1E c1 = calc_prob1E c2 := by
  unfold calc_prob1E calc_prob1
  rw [h0, h1]

/-- C8 (witness): an extra full-register key `'00'` contributes nothing. -/
theorem calc_prob1_depends_only_on_keys_w :
    calc_prob1E [("00", 7), ("0", 2), ("1", 1)] = calc_prob1E [("0", 2), ("1", 1)] :=
  calc_prob1_depends_only_on_keys [("00", 7), ("0", 2), ("1", 1)] [("0", 2), ("1", 1)]
    (by decide) (by decide)

/-- C9: for every `t1 > 0`, `inversion_recovery_function` is `1` at
`tau = 0`, strictly decreasing in `tau` on `tau ≥ 0`, and takes values in
`(0, 1]` there. -/
theorem inversion_recovery_props (t1 : ℝ) (ht : 0 < t1) :
    inversion_recovery_function 0 t1 = 1 ∧
    (∀ a b : ℝ, 0 ≤ a → a < b →
      inversion_recovery_function b t1 < inversion_recovery_function a t1) ∧
    (∀ tau : ℝ, 0 ≤ tau →
      0 < inversion_recovery_function tau t1 ∧ inversion_recovery_function tau t1 ≤ 1) := by
  refine ⟨?_, ?_, ?_⟩
  · simp [inversion_recovery_function]
  · intro a b _ hab
    exact Real.exp_lt_exp.mpr ((div_lt_div_iff_of_pos_right ht).mpr (by linarith))
  · intro tau htau
    refine ⟨Real.exp_pos _, ?_⟩
    have h1 : -tau / t1 ≤ 0 := div_nonpos_of_nonpos_of_nonneg (by linarith) (le_of_lt ht)
    have h2 := Real.exp_le_exp.mpr h1
    rwa [Real.exp_zero] at h2

/-- C9 (witness): instantiation at `t1 = 1`, `tau = 0`. -/
theorem inversion_recovery_props_w : inversion_recovery_function 0 1 = 1 :=
  (inversion_recovery_props 1 one_pos).1

/-- C10: on the 5-node graph of the optimization notebook, for every binary
assignment the MaxCut objective
`sum of w * (x[i] + x[j] - 2*x[i]*x[j]) over the edges` equals the total
weight of the edges whose endpoints get different values. -/
theorem maxcut_objective_eq_cut (x : ℕ → ℚ) (hx : ∀ i, i < 5 → x i = 0 ∨ x i = 1) :
    objective x = cutValue x := by
  have h0 := hx 0 (by norm_num)
  have h1 := hx 1 (by norm_num)
  have h2 := hx 2 (by norm_num)
  have h3 := hx 3 (by norm_num)
  have h4 := hx 4 (by norm_num)
  rcases h0 with h0 | h0 <;> rcases h1 with h1 | h1 <;> rcases h2 with h2 | h2 <;>
    rcases h3 with h3 | h3 <;> rcases h4 with h4 | h4 <;>
    norm_num [objective, cutValue, edges, h0, h1, h2, h3, h4]

/-- C10 (witness): instantiation at the assignment putting only node 0 on
one side of the cut. -/
theorem maxcut_objective_eq_cut_w :
    objective (fun i => if i = 0 then 1 else 0) =
      cutValue (fun i => if i = 0 then 1 else 0) :=
  maxcut_objective_eq_cut _ (by intro i hi; by_cases h : i = 0 <;> simp [h])
